import Mathlib

/-!
Verification of the BBS colour-code transcoding library (package bbs with its
internal split package). Text is modelled as List Char; the Go regular
expressions are modelled as direct left-to-right scanners that agree with the
leftmost-match semantics of the original patterns, and the HTML template
execution is modelled by explicit span builders that apply the html template
escaper to every interpolated value.
-/

set_option maxHeartbeats 1000000

/-- Characters written via code points to keep the source ASCII-clean. -/
def quoteC : Char := Char.ofNat 34

def apostC : Char := Char.ofNat 39

def graveC : Char := Char.ofNat 96

def etxC : Char := Char.ofNat 3

def escC : Char := Char.ofNat 27

/-- The private separator rune 65535 used by the split package. -/
def sepC : Char := Char.ofNat 65535

/-- The unicode replacement character emitted by the template escaper for NUL. -/
def replC : Char := Char.ofNat 65533

/-- listPrefix pat l is true when pat is a prefix of l (bytes.HasPrefix). -/
def listPrefix : List Char → List Char → Bool
  | [], _ => true
  | _ :: _, [] => false
  | a :: as, b :: bs => a == b && listPrefix as bs

/-- containsSub s pat is true when pat occurs inside s (bytes.Contains). -/
def containsSub : List Char → List Char → Bool
  | [], pat => pat.isEmpty
  | s@(_ :: rest), pat => listPrefix pat s || containsSub rest pat

/-- Whitespace as recognised by unicode.IsSpace on the Latin-1 range,
used by bytes.TrimSpace. -/
def wsp (c : Char) : Bool :=
  c == ' ' || c == '\t' || c == '\n' || c == Char.ofNat 11 || c == Char.ofNat 12 ||
    c == '\r' || c == Char.ofNat 133 || c == Char.ofNat 160

/-- bytes.TrimSpace: drop whitespace from both ends. -/
def trimSpace (l : List Char) : List Char :=
  ((l.dropWhile wsp).reverse.dropWhile wsp).reverse

/-- Escaping of one character as performed by the html template package in
text and quoted-attribute contexts (htmlReplacementTable). -/
def escOne (c : Char) : List Char :=
  if c = Char.ofNat 0 then [replC]
  else if c = quoteC then "&#34;".toList
  else if c = apostC then "&#39;".toList
  else if c = '&' then "&amp;".toList
  else if c = '<' then "&lt;".toList
  else if c = '>' then "&gt;".toList
  else [c]

/-- Escaping of a string by the html template engine. -/
def escapeHTML : List Char → List Char
  | [] => []
  | c :: cs => escOne c ++ escapeHTML cs

/-- Value of a decimal digit character, as an integer. -/
def digitVal (c : Char) : Int := (c.toNat : Int) - 48

/-- strconv.Atoi applied to a two-character slice: two digits, or a sign
followed by one digit; anything else is an error (modelled as none). -/
def atoi2c (a b : Char) : Option Int :=
  if a.isDigit ∧ b.isDigit then some (10 * digitVal a + digitVal b)
  else if a = '+' ∧ b.isDigit then some (digitVal b)
  else if a = '-' ∧ b.isDigit then some (-(digitVal b))
  else none

/-- Errors surfaced by the Go code: the two sentinel errors, the nil-buffer
error and a slice-bounds panic. -/
inductive GoErr where
  | errNone
  | errANSI
  | errBuff
  | panicSlice
deriving DecidableEq, Repr

namespace Split

/-- The two payload characters of the Renegade bars pattern
0[0-9]|1[1-9]|2[0-3] (split.VBarsRe). -/
def vbarsPair (a b : Char) : Bool :=
  (decide (a = '0') && b.isDigit)
    || (decide (a = '1') && decide ('1' ≤ b) && decide (b ≤ '9'))
    || (decide (a = '2') && decide ('0' ≤ b) && decide (b ≤ '3'))

/-- The Celerity code letters (split.CelerityRe payload set). -/
def celLetterSet : List Char := "kbgcrmywdBGCRMYWS".toList

def celLetter (c : Char) : Bool := celLetterSet.contains c

/-- Case-insensitive hexadecimal class of the PCBoard pattern. -/
def pcbHex (c : Char) : Bool :=
  c.isDigit || (decide ('A' ≤ c) && decide (c ≤ 'F')) || (decide ('a' ≤ c) && decide (c ≤ 'f'))

/-- The X of a PCBoard code, case-insensitive. -/
def pcbX (c : Char) : Bool := decide (c = 'X') || decide (c = 'x')

/-- ReplaceAll of VBarsRe by sep plus the captured pair. -/
def barsSubst : List Char → List Char
  | [] => []
  | [c] => [c]
  | [c, d] => [c, d]
  | c :: d :: e :: rest =>
    if c = '|' ∧ vbarsPair d e then sepC :: d :: e :: barsSubst rest
    else c :: barsSubst (d :: e :: rest)

/-- Whether VBarsRe has at least one match. -/
def hasBarsMatch : List Char → Bool
  | c :: d :: e :: rest => (decide (c = '|') && vbarsPair d e) || hasBarsMatch (d :: e :: rest)
  | _ => false

/-- ReplaceAll of CelerityRe by sep plus the captured letter. -/
def celSubst : List Char → List Char
  | [] => []
  | [c] => [c]
  | c :: d :: rest =>
    if c = '|' ∧ celLetter d then sepC :: d :: celSubst rest
    else c :: celSubst (d :: rest)

/-- Whether CelerityRe has at least one match. -/
def hasCelMatch : List Char → Bool
  | c :: d :: rest => (decide (c = '|') && celLetter d) || hasCelMatch (d :: rest)
  | _ => false

/-- ReplaceAll of PCBoardRe by sep plus the captured hex pair. -/
def pcbSubst : List Char → List Char
  | c :: d :: e :: f :: rest =>
    if c = '@' ∧ pcbX d ∧ pcbHex e ∧ pcbHex f then sepC :: e :: f :: pcbSubst rest
    else c :: pcbSubst (d :: e :: f :: rest)
  | l => l

/-- Whether PCBoardRe has at least one match. -/
def hasPCBMatch : List Char → Bool
  | c :: d :: e :: f :: rest =>
    (decide (c = '@') && pcbX d && pcbHex e && pcbHex f) || hasPCBMatch (d :: e :: f :: rest)
  | _ => false

/-- bytes.Split on a single separator character. -/
def splitOnChar (t : Char) : List Char → List (List Char)
  | [] => [[]]
  | c :: cs =>
    if c = t then [] :: splitOnChar t cs
    else
      match splitOnChar t cs with
      | [] => [[c]]
      | p :: ps => (c :: p) :: ps

/-- split.VBars: substitute, bail out when no separator is present, then split
and drop empty pieces. -/
def VBars (src : List Char) : List (List Char) :=
  let res := barsSubst src
  if res.contains sepC then (splitOnChar sepC res).filter (fun p => !p.isEmpty) else []

/-- split.Celerity. -/
def Celerity (src : List Char) : List (List Char) :=
  let res := celSubst src
  if res.contains sepC then (splitOnChar sepC res).filter (fun p => !p.isEmpty) else []

/-- split.PCBoard. -/
def PCBoard (src : List Char) : List (List Char) :=
  let res := pcbSubst src
  if res.contains sepC then (splitOnChar sepC res).filter (fun p => !p.isEmpty) else []

/-- Decimal rendering of the integer colour fields by the template engine. -/
def intDec (n : Int) : List Char :=
  if n < 0 then '-' :: Nat.toDigits 10 n.natAbs else Nat.toDigits 10 n.toNat

/-- One rendered span of the bars template
with background class P followed by foreground class P. -/
def barsSpan (p : Int × Int) (lit : List Char) : List Char :=
  "<i class=\"P".toList ++ intDec p.1 ++ " P".toList ++ intDec p.2
    ++ "\">".toList ++ escapeHTML lit ++ "</i>".toList

/-- One rendered span of the string-colour template with PB and PF classes;
the interpolated colour values pass through the attribute escaper. -/
def celSpan (bg fg lit : List Char) : List Char :=
  "<i class=\"PB".toList ++ escapeHTML bg ++ " PF".toList ++ escapeHTML fg
    ++ "\">".toList ++ escapeHTML lit ++ "</i>".toList

def celSpanP (p : List Char × List Char) (lit : List Char) : List Char := celSpan p.1 p.2 lit

/-- split.barBackground, verbatim from the source. -/
def barBackground (n : Int) : Bool :=
  if n < 16 then false else if n > 23 then false else true

/-- split.barForeground, verbatim from the source. -/
def barForeground (n : Int) : Bool :=
  if n < 0 then false else if n > 15 then false else true

/-- The state update of the split.VBarsHTML loop: a value in the foreground
range replaces the foreground, one in the background range replaces the
background. State is the pair (background, foreground). -/
def barsNext (st : Int × Int) (n : Int) : Int × Int :=
  (if barBackground n then n else st.1, if barForeground n then n else st.2)

/-- The loop body of split.VBarsHTML over the fragment list. A fragment
shorter than two characters makes the Go code slice out of bounds, modelled
as the panic error. -/
def renderBarsAux (st : Int × Int) : List (List Char) → Except GoErr (List Char)
  | [] => .ok []
  | frag :: rest =>
    match frag with
    | a :: b :: cs =>
      match atoi2c a b with
      | none => renderBarsAux st rest
      | some n =>
        (renderBarsAux (barsNext st n) rest).map (fun t => barsSpan (barsNext st n) cs ++ t)
    | _ => .error .panicSlice

/-- split.VBarsHTML: passthrough when the splitter yields nothing, else the
span-rendering loop starting from background 0, foreground 0. -/
def VBarsHTML (src : List Char) : Except GoErr (List Char) :=
  let bars := VBars src
  if bars.isEmpty then .ok src else renderBarsAux (0, 0) bars

/-- One iteration of the split.CelerityHTML loop: given the swap flag and the
state (background string, foreground string), consume one fragment, producing
the next flag, the next state and an optional emitted span. -/
def celStep (bg : Bool) (st : List Char × List Char) (frag : List Char) :
    Bool × (List Char × List Char) × Option (List Char) :=
  if frag = ['S'] then (!bg, st, none)
  else
    match frag with
    | c :: cs =>
      let st2 := if bg then ([c], st.2) else (st.1, [c])
      (bg, st2, some (celSpan st2.1 st2.2 cs))
    | [] => (bg, st, none)

/-- The loop of split.CelerityHTML over the fragment list. -/
def renderCelAux (bg : Bool) (st : List Char × List Char) :
    List (List Char) → Except GoErr (List Char)
  | [] => .ok []
  | [] :: _ => .error .panicSlice
  | (c :: cs) :: rest =>
    let s := celStep bg st (c :: cs)
    match s.2.2 with
    | none => renderCelAux s.1 s.2.1 rest
    | some sp => (renderCelAux s.1 s.2.1 rest).map (fun t => sp ++ t)

/-- split.CelerityHTML with its defaults: foreground w, background k, swap
flag off. -/
def CelerityHTML (src : List Char) : Except GoErr (List Char) :=
  let bars := Celerity src
  if bars.isEmpty then .ok src else renderCelAux false (['k'], ['w']) bars

/-- ASCII upper-casing as applied by strings.ToUpper to the hex digits. -/
def toUpperC (c : Char) : Char :=
  if decide ('a' ≤ c) && decide (c ≤ 'z') then Char.ofNat (c.toNat - 32) else c

/-- The loop of split.PCBoardHTML: stateless, both colour classes set from the
first two characters of every fragment. -/
def renderPCBAux : List (List Char) → Except GoErr (List Char)
  | [] => .ok []
  | (a :: b :: cs) :: rest =>
    (renderPCBAux rest).map (fun t => celSpan [toUpperC a] [toUpperC b] cs ++ t)
  | _ :: _ => .error .panicSlice

/-- split.PCBoardHTML. -/
def PCBoardHTML (src : List Char) : Except GoErr (List Char) :=
  let xcodes := PCBoard src
  if xcodes.isEmpty then .ok src else renderPCBAux xcodes

end Split

namespace Bbs

/-- The ANSI signature: escape followed by a left square bracket. -/
def ansiSig : List Char := [escC, '[']

/-- The Wildcat normalisation @hh@ to @Xhh performed by WildcatHTML. The
character class of WildcatRe is 0-9, the vertical bar, and A-F
case-insensitively. -/
def telClass (c : Char) : Bool := Split.pcbHex c || decide (c = '|')

def wildcatSubst : List Char → List Char
  | c :: d :: e :: f :: rest =>
    if c = '@' ∧ telClass d ∧ telClass e ∧ f = '@' then
      '@' :: 'X' :: d :: e :: wildcatSubst rest
    else c :: wildcatSubst (d :: e :: f :: rest)
  | l => l

def hasWildcatMatch : List Char → Bool
  | c :: d :: e :: f :: rest =>
    (decide (c = '@') && telClass d && telClass e && decide (f = '@'))
      || hasWildcatMatch (d :: e :: f :: rest)
  | _ => false

/-- The Telegard normalisation of grave-accent codes to @X codes. -/
def telegardSubst : List Char → List Char
  | c :: d :: e :: rest =>
    if c = graveC ∧ telClass d ∧ telClass e then
      '@' :: 'X' :: d :: e :: telegardSubst rest
    else c :: telegardSubst (d :: e :: rest)
  | l => l

def hasTelegardMatch : List Char → Bool
  | c :: d :: e :: rest =>
    (decide (c = graveC) && telClass d && telClass e) || hasTelegardMatch (d :: e :: rest)
  | _ => false

/-- The WWIV hash normalisation of a hash code to a two-digit bars code. -/
def hashSubst : List Char → List Char
  | c :: d :: e :: rest =>
    if c = '|' ∧ d = '#' ∧ e.isDigit then '|' :: '0' :: e :: hashSubst rest
    else c :: hashSubst (d :: e :: rest)
  | l => l

def hasHashMatch : List Char → Bool
  | c :: d :: e :: rest =>
    (decide (c = '|') && decide (d = '#') && e.isDigit) || hasHashMatch (d :: e :: rest)
  | _ => false

/-- The WWIV heart normalisation of an ETX code to a two-digit bars code. -/
def heartSubst : List Char → List Char
  | c :: d :: rest =>
    if c = etxC ∧ d.isDigit then '|' :: '0' :: d :: heartSubst rest
    else c :: heartSubst (d :: rest)
  | l => l

def hasHeartMatch : List Char → Bool
  | c :: d :: rest => (decide (c = etxC) && d.isDigit) || hasHeartMatch (d :: rest)
  | _ => false

/-- bbs.RenegadeHTML delegates to split.VBarsHTML. -/
def RenegadeHTML (src : List Char) : Except GoErr (List Char) := Split.VBarsHTML src

/-- bbs.CelerityHTML delegates to split.CelerityHTML. -/
def CelerityHTML (src : List Char) : Except GoErr (List Char) := Split.CelerityHTML src

/-- bbs.PCBoardHTML delegates to split.PCBoardHTML. -/
def PCBoardHTML (src : List Char) : Except GoErr (List Char) := Split.PCBoardHTML src

/-- bbs.WildcatHTML rewrites @hh@ codes to @Xhh and renders them as PCBoard. -/
def WildcatHTML (src : List Char) : Except GoErr (List Char) :=
  Split.PCBoardHTML (wildcatSubst src)

/-- bbs.TelegardHTML rewrites grave codes to @Xhh and renders them as PCBoard. -/
def TelegardHTML (src : List Char) : Except GoErr (List Char) :=
  Split.PCBoardHTML (telegardSubst src)

/-- bbs.WWIVHashHTML rewrites pipe-hash codes to bars codes. -/
def WWIVHashHTML (src : List Char) : Except GoErr (List Char) :=
  Split.VBarsHTML (hashSubst src)

/-- bbs.WWIVHeartHTML rewrites ETX codes to bars codes. -/
def WWIVHeartHTML (src : List Char) : Except GoErr (List Char) :=
  Split.VBarsHTML (heartSubst src)

/-- Upper-case hexadecimal digit, as produced by the %X format verb. -/
def hexDig (n : Nat) : Char := "0123456789ABCDEF".toList.getD n '0'

/-- bbs.IsCelerity: search for the vertical bar followed by each code letter. -/
def IsCelerity (src : List Char) : Bool :=
  Split.celLetterSet.any (fun c => containsSub src ['|', c])

/-- bbs.IsPCBoard: search for @X followed by each of the 256 upper-case hex
pairs. -/
def IsPCBoard (src : List Char) : Bool :=
  (List.range 16).any fun bg =>
    (List.range 16).any fun fg => containsSub src ('@' :: 'X' :: hexDig bg :: [hexDig fg])

/-- bbs.IsRenegade: search for the vertical bar followed by the decimal
rendering of each value 0 to 23. The %01d verb does not zero-pad, so the
needles for 0 through 9 are single digits. -/
def IsRenegade (src : List Char) : Bool :=
  (List.range 24).any fun i => containsSub src ('|' :: Nat.toDigits 10 i)

/-- bbs.IsTelegard: like IsRenegade with the grave-accent prefix. -/
def IsTelegard (src : List Char) : Bool :=
  (List.range 24).any fun i => containsSub src (graveC :: Nat.toDigits 10 i)

/-- bbs.IsWWIVHash. -/
def IsWWIVHash (src : List Char) : Bool :=
  (List.range 10).any fun i => containsSub src ('|' :: '#' :: Nat.toDigits 10 i)

/-- bbs.IsWWIVHeart. -/
def IsWWIVHeart (src : List Char) : Bool :=
  (List.range 10).any fun i => containsSub src (etxC :: Nat.toDigits 10 i)

/-- bbs.IsWildcat: each hex pair enclosed in at-signs. -/
def IsWildcat (src : List Char) : Bool :=
  (List.range 16).any fun bg =>
    (List.range 16).any fun fg => containsSub src ('@' :: hexDig bg :: hexDig fg :: ['@'])

/-- Drop a trailing carriage return, as bufio.ScanLines does. -/
def dropCR (l : List Char) : List Char :=
  if l.getLast? = some '\r' then l.dropLast else l

/-- The line sequence produced by bufio.Scanner over the input. -/
def splitLinesGo (src : List Char) : List (List Char) :=
  if src.isEmpty then []
  else
    let parts := Split.splitOnChar '\n' src
    let parts := if src.getLast? = some '\n' then parts.dropLast else parts
    parts.map dropCR

/-- The bytes a line is inspected through inside bbs.Find: the raw line, or
the trimmed line with the @CLS@ prefix removed when the trimmed line is
strictly longer than the prefix and starts with it. -/
def effLine (line : List Char) : List Char :=
  let ts := trimSpace line
  if 5 < ts.length ∧ listPrefix "@CLS@".toList ts then ts.drop 5 else line

/-- The verdict of one iteration of the bbs.Find loop: none means continue
with the next line, some v means return v (with -1 the none sentinel). The
format codes are ANSI 0, Celerity 1, PCBoard 2, Renegade 3, Telegard 4,
Wildcat 5, WWIVHash 6, WWIVHeart 7, as in the Go constant block. -/
def lineVerdict (line : List Char) : Option Int :=
  if trimSpace line = [] then none
  else
    let b := effLine line
    if containsSub b ansiSig then some 0
    else if containsSub b ['|'] then
      some (if IsRenegade b then 3 else if IsCelerity b then 1 else -1)
    else if IsPCBoard b then some 2
    else if IsTelegard b then some 4
    else if IsWildcat b then some 5
    else if IsWWIVHash b then some 6
    else if IsWWIVHeart b then some 7
    else none

def FindLines : List (List Char) → Int
  | [] => -1
  | l :: ls =>
    match lineVerdict l with
    | some v => v
    | none => FindLines ls

/-- bbs.Find over the scanned lines of the input. -/
def Find (src : List Char) : Int := FindLines (splitLinesGo src)

/-- bbs.BBS.Valid. -/
def Valid (b : Int) : Bool := decide (0 ≤ b) && decide (b ≤ 7)

/-- bbs.Fields: detect, reject the none sentinel and ANSI, then split with
the grammar of the detected format. -/
def Fields (src : List Char) : Except GoErr (List (List Char) × Int) :=
  let f := Find src
  if ¬ Valid f then .error .errNone
  else if f = 0 then .error .errANSI
  else if f = 1 then .ok (Split.Celerity src, f)
  else if f = 2 ∨ f = 4 ∨ f = 5 then .ok (Split.PCBoard src, f)
  else .ok (Split.VBars src, f)

/-- bbs.TrimControls: remove every @CLS@, @CLS @ and @PAUSE@ occurrence. -/
def TrimControls : List Char → List Char
  | '@' :: 'C' :: 'L' :: 'S' :: '@' :: rest => TrimControls rest
  | '@' :: 'C' :: 'L' :: 'S' :: ' ' :: '@' :: rest => TrimControls rest
  | '@' :: 'P' :: 'A' :: 'U' :: 'S' :: 'E' :: '@' :: rest => TrimControls rest
  | c :: cs => c :: TrimControls cs
  | [] => []

/-- bbs.BBS.HTML: strip controls then dispatch on the format value. -/
def bbsHTML (f : Int) (x : List Char) : Except GoErr (List Char) :=
  if f = 0 then .error .errANSI
  else if f = 1 then Split.CelerityHTML x
  else if f = 2 then Split.PCBoardHTML x
  else if f = 3 then Split.VBarsHTML x
  else if f = 4 then TelegardHTML x
  else if f = 5 then WildcatHTML x
  else if f = 6 then WWIVHashHTML x
  else if f = 7 then WWIVHeartHTML x
  else .error .errNone

/-- bbs.HTML: find the format on the teed stream, then render the full
content through BBS.HTML, returning the format alongside the outcome. -/
def HTML (src : List Char) : Int × Except GoErr (List Char) :=
  let f := Find src
  (f, bbsHTML f (TrimControls src))

end Bbs

/-! Helper layer: properties of the escaper. -/

/-- A character that must never appear raw inside rendered span content. -/
def dangerous (c : Char) : Bool :=
  c == '<' || c == '>' || c == quoteC || c == apostC

/-- Checker that every ampersand in a string starts one of the five entities
produced by the escaper. -/
def ampOK : List Char → Bool
  | [] => true
  | c :: rest =>
    (if c = '&' then
        listPrefix "lt;".toList rest || listPrefix "gt;".toList rest
          || listPrefix "amp;".toList rest || listPrefix "#39;".toList rest
          || listPrefix "#34;".toList rest
      else true)
      && ampOK rest

theorem escapeHTML_no_dangerous : ∀ s : List Char, (escapeHTML s).all (fun c => !dangerous c) = true := by
  intro s
  induction s with
  | nil => rfl
  | cons a as ih =>
    show ((escOne a ++ escapeHTML as).all fun c => !dangerous c) = true
    rw [List.all_append, ih, Bool.and_true]
    by_cases h0 : a = Char.ofNat 0
    · subst h0; decide
    by_cases h1 : a = quoteC
    · subst h1; decide
    by_cases h2 : a = apostC
    · subst h2; decide
    by_cases h3 : a = '&'
    · subst h3; decide
    by_cases h4 : a = '<'
    · subst h4; decide
    by_cases h5 : a = '>'
    · subst h5; decide
    · simp [escOne, h0, h1, h2, h3, h4, h5, dangerous]

theorem ampOK_cons_ne {c : Char} (h : c ≠ '&') (r : List Char) : ampOK (c :: r) = ampOK r := by
  simp [ampOK, h]

theorem ampOK_escapeHTML : ∀ s : List Char, ampOK (escapeHTML s) = true := by
  intro s
  induction s with
  | nil => rfl
  | cons a as ih =>
    show ampOK (escOne a ++ escapeHTML as) = true
    by_cases h0 : a = Char.ofNat 0
    · simp only [escOne, h0, if_pos, List.cons_append, List.nil_append]
      rw [ampOK_cons_ne (by decide), ih]
    by_cases h1 : a = quoteC
    · simp [escOne, h0, h1, ampOK, listPrefix, ih]
    by_cases h2 : a = apostC
    · simp [escOne, h0, h1, h2, ampOK, listPrefix, ih]
    by_cases h3 : a = '&'
    · simp [escOne, h0, h1, h2, h3, ampOK, listPrefix, ih]
    by_cases h4 : a = '<'
    · simp [escOne, h0, h1, h2, h3, h4, ampOK, listPrefix, ih]
    by_cases h5 : a = '>'
    · simp [escOne, h0, h1, h2, h3, h4, h5, ampOK, listPrefix, ih]
    · simp only [escOne, h0, h1, h2, h3, h4, h5, if_neg, if_false, reduceIte,
        List.cons_append, List.nil_append]
      rw [ampOK_cons_ne h3, ih]

/-! Helper layer: output decomposition into spans. -/

/-- A string that is a concatenation of spans built by the span constructor f
from some state and some literal content. -/
inductive SpanConcat {α : Type} (f : α → List Char → List Char) : List Char → Prop where
  | nil : SpanConcat f []
  | cons (a : α) (lit : List Char) {rest : List Char} :
      SpanConcat f rest → SpanConcat f (f a lit ++ rest)

theorem renderBarsAux_spanConcat :
    ∀ (frags : List (List Char)) (st : Int × Int) (out : List Char),
      Split.renderBarsAux st frags = .ok out → SpanConcat Split.barsSpan out := by
  intro frags
  induction frags with
  | nil =>
    intro st out h
    simp only [Split.renderBarsAux, Except.ok.injEq] at h
    rw [← h]
    exact .nil
  | cons frag rest ih =>
    intro st out h
    match frag with
    | [] => simp [Split.renderBarsAux] at h
    | [a] => simp [Split.renderBarsAux] at h
    | a :: b :: cs =>
      rw [Split.renderBarsAux] at h
      split at h
      next => exact ih st out h
      next n hA =>
        cases hr : Split.renderBarsAux (Split.barsNext st n) rest with
        | error e => rw [hr] at h; simp [Except.map] at h
        | ok t =>
          rw [hr] at h
          simp only [Except.map, Except.ok.injEq] at h
          rw [← h]
          exact .cons (Split.barsNext st n) cs (ih _ t hr)

theorem renderCelAux_spanConcat :
    ∀ (frags : List (List Char)) (bg : Bool) (st : List Char × List Char) (out : List Char),
      Split.renderCelAux bg st frags = .ok out → SpanConcat Split.celSpanP out := by
  intro frags
  induction frags with
  | nil =>
    intro bg st out h
    simp only [Split.renderCelAux, Except.ok.injEq] at h
    rw [← h]
    exact .nil
  | cons frag rest ih =>
    intro bg st out h
    match frag with
    | [] => simp [Split.renderCelAux] at h
    | c :: cs =>
      rw [Split.renderCelAux] at h
      by_cases hS : (c :: cs : List Char) = ['S']
      · simp only [Split.celStep, hS, if_pos] at h
        exact ih _ _ out h
      · simp only [Split.celStep, hS, if_neg, if_false, reduceIte] at h
        cases hr : Split.renderCelAux bg (if bg then ([c], st.2) else (st.1, [c])) rest with
        | error e => rw [hr] at h; simp [Except.map] at h
        | ok t =>
          rw [hr] at h
          simp only [Except.map, Except.ok.injEq] at h
          rw [← h]
          exact .cons ((if bg then ([c], st.2) else (st.1, [c])).1,
            (if bg then ([c], st.2) else (st.1, [c])).2) cs (ih _ _ t hr)

theorem renderPCBAux_spanConcat :
    ∀ (frags : List (List Char)) (out : List Char),
      Split.renderPCBAux frags = .ok out → SpanConcat Split.celSpanP out := by
  intro frags
  induction frags with
  | nil =>
    intro out h
    simp only [Split.renderPCBAux, Except.ok.injEq] at h
    rw [← h]
    exact .nil
  | cons frag rest ih =>
    intro out h
    match frag with
    | [] => simp [Split.renderPCBAux] at h
    | [a] => simp [Split.renderPCBAux] at h
    | a :: b :: cs =>
      rw [Split.renderPCBAux] at h
      cases hr : Split.renderPCBAux rest with
      | error e => rw [hr] at h; simp [Except.map] at h
      | ok t =>
        rw [hr] at h
        simp only [Except.map, Except.ok.injEq] at h
        rw [← h]
        exact .cons ([Split.toUpperC a], [Split.toUpperC b]) cs (ih t hr)

/-! Helper layer: grammar facts and splitter structure. -/

theorem vbarsPair_fst {d e : Char} (h : Split.vbarsPair d e = true) :
    d = '0' ∨ d = '1' ∨ d = '2' := by
  simp only [Split.vbarsPair, Bool.or_eq_true, Bool.and_eq_true, decide_eq_true_eq] at h
  rcases h with h | h | h <;> tauto

theorem vbarsPair_fst_ne_sep {d e : Char} (h : Split.vbarsPair d e = true) : d ≠ sepC := by
  rcases vbarsPair_fst h with h | h | h <;> subst h <;> decide

theorem celLetter_ne_sep {d : Char} (h : Split.celLetter d = true) : d ≠ sepC := by
  intro he
  subst he
  exact absurd h (by decide)

theorem pcbHex_ne_sep {d : Char} (h : Split.pcbHex d = true) : d ≠ sepC := by
  intro he
  subst he
  exact absurd h (by decide)

theorem splitOnChar_ne_nil (t : Char) : ∀ l : List Char, Split.splitOnChar t l ≠ [] := by
  intro l
  induction l with
  | nil => simp [Split.splitOnChar]
  | cons c cs ih =>
    rw [Split.splitOnChar]
    by_cases h : c = t
    · simp [h]
    · simp only [h, if_neg, if_false, reduceIte]
      cases hs : Split.splitOnChar t cs with
      | nil => exact absurd hs ih
      | cons p ps => simp

theorem splitOnChar_cons_ne {t c : Char} (h : c ≠ t) (cs : List Char) :
    ∃ p ps, Split.splitOnChar t cs = p :: ps ∧ Split.splitOnChar t (c :: cs) = (c :: p) :: ps := by
  cases hs : Split.splitOnChar t cs with
  | nil => exact absurd hs (splitOnChar_ne_nil t cs)
  | cons p ps =>
    refine ⟨p, ps, rfl, ?_⟩
    rw [Split.splitOnChar, if_neg h, hs]

theorem filter_splitOnChar_ne_nil {t : Char} :
    ∀ res : List Char, (∃ c ∈ res, c ≠ t) →
      (Split.splitOnChar t res).filter (fun p => !p.isEmpty) ≠ [] := by
  intro res
  induction res with
  | nil => rintro ⟨c, hc, _⟩; exact absurd hc (List.not_mem_nil c)
  | cons c cs ih =>
    rintro ⟨x, hx, hxt⟩
    by_cases h : c = t
    · have hxcs : x ∈ cs := by
        rcases List.mem_cons.mp hx with h1 | h1
        · exact absurd (h1 ▸ h) hxt
        · exact h1
      rw [Split.splitOnChar, if_pos h]
      simpa using ih ⟨x, hxcs, hxt⟩
    · obtain ⟨p, ps, _, h2⟩ := splitOnChar_cons_ne h cs
      rw [h2]
      simp

theorem splitOnChar_append_sep {t : Char} :
    ∀ pre tail : List Char, (∀ c ∈ pre, c ≠ t) →
      Split.splitOnChar t (pre ++ t :: tail) = pre :: Split.splitOnChar t tail := by
  intro pre
  induction pre with
  | nil => intro tail _; simp [Split.splitOnChar]
  | cons c cs ih =>
    intro tail hpre
    have hc : c ≠ t := hpre c (List.mem_cons_self c cs)
    have := ih tail (fun x hx => hpre x (List.mem_cons_of_mem c hx))
    rw [List.cons_append, Split.splitOnChar, if_neg hc, this]

/-- With a match present, the bars substitution contains the separator and at
least one other character. -/
theorem barsSubst_of_match :
    ∀ src : List Char, Split.hasBarsMatch src = true →
      sepC ∈ Split.barsSubst src ∧ ∃ c ∈ Split.barsSubst src, c ≠ sepC := by
  intro src
  induction src using Split.barsSubst.induct with
  | case1 => intro h; exact absurd h (by decide)
  | case2 c => intro h; exact absurd h (by simp [Split.hasBarsMatch])
  | case3 c d => intro h; exact absurd h (by simp [Split.hasBarsMatch])
  | case4 c d e rest hmatch ih =>
    intro _
    rw [Split.barsSubst, if_pos hmatch]
    refine ⟨List.mem_cons_self _ _, d, ?_, vbarsPair_fst_ne_sep hmatch.2⟩
    exact List.mem_cons_of_mem _ (List.mem_cons_self _ _)
  | case5 c d e rest hmatch ih =>
    intro h
    rw [Split.hasBarsMatch] at h
    have hrec : Split.hasBarsMatch (d :: e :: rest) = true := by
      rcases Bool.or_eq_true_iff.mp h with h1 | h1
      · simp only [Bool.and_eq_true, decide_eq_true_eq] at h1
        exact absurd h1 hmatch
      · exact h1
    obtain ⟨hmem, x, hx, hxne⟩ := ih hrec
    rw [Split.barsSubst, if_neg hmatch]
    exact ⟨List.mem_cons_of_mem _ hmem, x, List.mem_cons_of_mem _ hx, hxne⟩

theorem celSubst_of_match :
    ∀ src : List Char, Split.hasCelMatch src = true →
      sepC ∈ Split.celSubst src ∧ ∃ c ∈ Split.celSubst src, c ≠ sepC := by
  intro src
  induction src using Split.celSubst.induct with
  | case1 => intro h; exact absurd h (by decide)
  | case2 c => intro h; exact absurd h (by simp [Split.hasCelMatch])
  | case3 c d rest hmatch ih =>
    intro _
    rw [Split.celSubst, if_pos hmatch]
    refine ⟨List.mem_cons_self _ _, d, ?_, celLetter_ne_sep hmatch.2⟩
    exact List.mem_cons_of_mem _ (List.mem_cons_self _ _)
  | case4 c d rest hmatch ih =>
    intro h
    rw [Split.hasCelMatch] at h
    have hrec : Split.hasCelMatch (d :: rest) = true := by
      rcases Bool.or_eq_true_iff.mp h with h1 | h1
      · simp only [Bool.and_eq_true, decide_eq_true_eq] at h1
        exact absurd h1 hmatch
      · exact h1
    obtain ⟨hmem, x, hx, hxne⟩ := ih hrec
    rw [Split.celSubst, if_neg hmatch]
    exact ⟨List.mem_cons_of_mem _ hmem, x, List.mem_cons_of_mem _ hx, hxne⟩

theorem pcbSubst_of_match :
    ∀ src : List Char, Split.hasPCBMatch src = true →
      sepC ∈ Split.pcbSubst src ∧ ∃ c ∈ Split.pcbSubst src, c ≠ sepC := by
  intro src
  induction src using Split.pcbSubst.induct with
  | case1 c d e f rest hmatch ih =>
    intro _
    rw [Split.pcbSubst, if_pos hmatch]
    refine ⟨List.mem_cons_self _ _, e, ?_, pcbHex_ne_sep hmatch.2.2.1⟩
    exact List.mem_cons_of_mem _ (List.mem_cons_self _ _)
  | case2 c d e f rest hmatch ih =>
    intro h
    rw [Split.hasPCBMatch] at h
    have hrec : Split.hasPCBMatch (d :: e :: f :: rest) = true := by
      rcases Bool.or_eq_true_iff.mp h with h1 | h1
      · simp only [Bool.and_eq_true, decide_eq_true_eq] at h1
        exact absurd ⟨h1.1.1.1, h1.1.1.2, h1.1.2, h1.2⟩ hmatch
      · exact h1
    obtain ⟨hmem, x, hx, hxne⟩ := ih hrec
    rw [Split.pcbSubst, if_neg hmatch]
    exact ⟨List.mem_cons_of_mem _ hmem, x, List.mem_cons_of_mem _ hx, hxne⟩
  | case3 l hl =>
    intro h
    exfalso
    rcases l with _ | ⟨a, _ | ⟨b, _ | ⟨c, _ | ⟨d, rest⟩⟩⟩⟩
    · exact absurd h (by decide)
    · exact absurd h (by simp [Split.hasPCBMatch])
    · exact absurd h (by simp [Split.hasPCBMatch])
    · exact absurd h (by simp [Split.hasPCBMatch])
    · exact hl a b c d rest rfl

/-! Helper layer: a grammar without matches substitutes to itself. -/

theorem barsSubst_id_of_no_match :
    ∀ src : List Char, Split.hasBarsMatch src = false → Split.barsSubst src = src := by
  intro src
  induction src using Split.barsSubst.induct with
  | case1 => intro _; rfl
  | case2 c => intro _; rfl
  | case3 c d => intro _; rfl
  | case4 c d e rest hmatch ih =>
    intro h
    obtain ⟨hc, hp⟩ := hmatch
    subst hc
    rw [Split.hasBarsMatch] at h
    simp [hp] at h
  | case5 c d e rest hmatch ih =>
    intro h
    rw [Split.hasBarsMatch] at h
    rcases Bool.or_eq_false_iff.mp h with ⟨_, h2⟩
    rw [Split.barsSubst, if_neg hmatch, ih h2]

theorem celSubst_id_of_no_match :
    ∀ src : List Char, Split.hasCelMatch src = false → Split.celSubst src = src := by
  intro src
  induction src using Split.celSubst.induct with
  | case1 => intro _; rfl
  | case2 c => intro _; rfl
  | case3 c d rest hmatch ih =>
    intro h
    obtain ⟨hc, hp⟩ := hmatch
    subst hc
    rw [Split.hasCelMatch] at h
    simp [hp] at h
  | case4 c d rest hmatch ih =>
    intro h
    rw [Split.hasCelMatch] at h
    rcases Bool.or_eq_false_iff.mp h with ⟨_, h2⟩
    rw [Split.celSubst, if_neg hmatch, ih h2]

theorem pcbSubst_id_of_no_match :
    ∀ src : List Char, Split.hasPCBMatch src = false → Split.pcbSubst src = src := by
  intro src
  induction src using Split.pcbSubst.induct with
  | case1 c d e f rest hmatch ih =>
    intro h
    obtain ⟨hc, hd, he, hf⟩ := hmatch
    subst hc
    rw [Split.hasPCBMatch] at h
    simp [hd, he, hf] at h
  | case2 c d e f rest hmatch ih =>
    intro h
    rw [Split.hasPCBMatch] at h
    rcases Bool.or_eq_false_iff.mp h with ⟨_, h2⟩
    rw [Split.pcbSubst, if_neg hmatch, ih h2]
  | case3 l hl =>
    intro _
    rcases l with _ | ⟨a, _ | ⟨b, _ | ⟨c, _ | ⟨d, rest⟩⟩⟩⟩
    · rfl
    · rfl
    · rfl
    · rfl
    · exact absurd rfl (by intro he; exact hl a b c d rest he)

theorem wildcatSubst_id_of_no_match :
    ∀ src : List Char, Bbs.hasWildcatMatch src = false → Bbs.wildcatSubst src = src := by
  intro src
  induction src using Bbs.wildcatSubst.induct with
  | case1 c d e f rest hmatch ih =>
    intro h
    obtain ⟨hc, hd, he, hf⟩ := hmatch
    subst hc
    subst hf
    rw [Bbs.hasWildcatMatch] at h
    simp [hd, he] at h
  | case2 c d e f rest hmatch ih =>
    intro h
    rw [Bbs.hasWildcatMatch] at h
    rcases Bool.or_eq_false_iff.mp h with ⟨_, h2⟩
    rw [Bbs.wildcatSubst, if_neg hmatch, ih h2]
  | case3 l hl =>
    intro _
    rcases l with _ | ⟨a, _ | ⟨b, _ | ⟨c, _ | ⟨d, rest⟩⟩⟩⟩
    · rfl
    · rfl
    · rfl
    · rfl
    · exact absurd rfl (by intro he; exact hl a b c d rest he)

theorem telegardSubst_id_of_no_match :
    ∀ src : List Char, Bbs.hasTelegardMatch src = false → Bbs.telegardSubst src = src := by
  intro src
  induction src using Bbs.telegardSubst.induct with
  | case1 c d e rest hmatch ih =>
    intro h
    obtain ⟨hc, hd, he⟩ := hmatch
    subst hc
    rw [Bbs.hasTelegardMatch] at h
    simp [hd, he] at h
  | case2 c d e rest hmatch ih =>
    intro h
    rw [Bbs.hasTelegardMatch] at h
    rcases Bool.or_eq_false_iff.mp h with ⟨_, h2⟩
    rw [Bbs.telegardSubst, if_neg hmatch, ih h2]
  | case3 l hl =>
    intro _
    rcases l with _ | ⟨a, _ | ⟨b, _ | ⟨c, rest⟩⟩⟩
    · rfl
    · rfl
    · rfl
    · exact absurd rfl (by intro he; exact hl a b c rest he)

theorem hashSubst_id_of_no_match :
    ∀ src : List Char, Bbs.hasHashMatch src = false → Bbs.hashSubst src = src := by
  intro src
  induction src using Bbs.hashSubst.induct with
  | case1 c d e rest hmatch ih =>
    intro h
    obtain ⟨hc, hd, he⟩ := hmatch
    subst hc
    subst hd
    rw [Bbs.hasHashMatch] at h
    simp [he] at h
  | case2 c d e rest hmatch ih =>
    intro h
    rw [Bbs.hasHashMatch] at h
    rcases Bool.or_eq_false_iff.mp h with ⟨_, h2⟩
    rw [Bbs.hashSubst, if_neg hmatch, ih h2]
  | case3 l hl =>
    intro _
    rcases l with _ | ⟨a, _ | ⟨b, _ | ⟨c, rest⟩⟩⟩
    · rfl
    · rfl
    · rfl
    · exact absurd rfl (by intro he; exact hl a b c rest he)

theorem heartSubst_id_of_no_match :
    ∀ src : List Char, Bbs.hasHeartMatch src = false → Bbs.heartSubst src = src := by
  intro src
  induction src using Bbs.heartSubst.induct with
  | case1 c d rest hmatch ih =>
    intro h
    obtain ⟨hc, hd⟩ := hmatch
    subst hc
    rw [Bbs.hasHeartMatch] at h
    simp [hd] at h
  | case2 c d rest hmatch ih =>
    intro h
    rw [Bbs.hasHeartMatch] at h
    rcases Bool.or_eq_false_iff.mp h with ⟨_, h2⟩
    rw [Bbs.heartSubst, if_neg hmatch, ih h2]
  | case3 l hl =>
    intro _
    rcases l with _ | ⟨a, _ | ⟨b, rest⟩⟩
    · rfl
    · rfl
    · exact absurd rfl (by intro he; exact hl a b rest he)

/-! Helper layer: splitters and renderers on clean input. -/

theorem VBars_nil_of_clean {src : List Char} (hm : Split.hasBarsMatch src = false)
    (hs : src.contains sepC = false) : Split.VBars src = [] := by
  rw [Split.VBars]
  simp only [barsSubst_id_of_no_match src hm, hs]
  rfl

theorem Celerity_nil_of_clean {src : List Char} (hm : Split.hasCelMatch src = false)
    (hs : src.contains sepC = false) : Split.Celerity src = [] := by
  rw [Split.Celerity]
  simp only [celSubst_id_of_no_match src hm, hs]
  rfl

theorem PCBoard_nil_of_clean {src : List Char} (hm : Split.hasPCBMatch src = false)
    (hs : src.contains sepC = false) : Split.PCBoard src = [] := by
  rw [Split.PCBoard]
  simp only [pcbSubst_id_of_no_match src hm, hs]
  rfl

theorem VBarsHTML_passthrough {src : List Char} (hm : Split.hasBarsMatch src = false)
    (hs : src.contains sepC = false) : Split.VBarsHTML src = .ok src := by
  rw [Split.VBarsHTML, VBars_nil_of_clean hm hs]
  rfl

theorem CelerityHTML_passthrough {src : List Char} (hm : Split.hasCelMatch src = false)
    (hs : src.contains sepC = false) : Split.CelerityHTML src = .ok src := by
  rw [Split.CelerityHTML, Celerity_nil_of_clean hm hs]
  rfl

theorem PCBoardHTML_passthrough {src : List Char} (hm : Split.hasPCBMatch src = false)
    (hs : src.contains sepC = false) : Split.PCBoardHTML src = .ok src := by
  rw [Split.PCBoardHTML, PCBoard_nil_of_clean hm hs]
  rfl

theorem VBars_ne_nil_of_match {src : List Char} (h : Split.hasBarsMatch src = true) :
    Split.VBars src ≠ [] := by
  obtain ⟨hmem, x, hx, hxne⟩ := barsSubst_of_match src h
  rw [Split.VBars]
  simp only [List.elem_eq_true_of_mem hmem]
  simpa using filter_splitOnChar_ne_nil (Split.barsSubst src) ⟨x, hx, hxne⟩

theorem Celerity_ne_nil_of_match {src : List Char} (h : Split.hasCelMatch src = true) :
    Split.Celerity src ≠ [] := by
  obtain ⟨hmem, x, hx, hxne⟩ := celSubst_of_match src h
  rw [Split.Celerity]
  simp only [List.elem_eq_true_of_mem hmem]
  simpa using filter_splitOnChar_ne_nil (Split.celSubst src) ⟨x, hx, hxne⟩

theorem PCBoard_ne_nil_of_match {src : List Char} (h : Split.hasPCBMatch src = true) :
    Split.PCBoard src ≠ [] := by
  obtain ⟨hmem, x, hx, hxne⟩ := pcbSubst_of_match src h
  rw [Split.PCBoard]
  simp only [List.elem_eq_true_of_mem hmem]
  simpa using filter_splitOnChar_ne_nil (Split.pcbSubst src) ⟨x, hx, hxne⟩

/-! Helper layer: detector facts. -/

theorem mem_dropWhile_of {c : Char} {p : Char → Bool} :
    ∀ l : List Char, c ∈ l → p c = false → c ∈ l.dropWhile p := by
  intro l
  induction l with
  | nil => intro h _; exact absurd h (List.not_mem_nil c)
  | cons x xs ih =>
    intro hm hp
    by_cases hx : p x = true
    · rw [List.dropWhile_cons_of_pos hx]
      rcases List.mem_cons.mp hm with h1 | h1
      · rw [← h1] at hx
        rw [hp] at hx
        cases hx
      · exact ih h1 hp
    · rw [List.dropWhile_cons_of_neg hx]
      exact hm

theorem mem_trimSpace_of {c : Char} {l : List Char} (hm : c ∈ l) (hp : wsp c = false) :
    c ∈ trimSpace l := by
  rw [trimSpace]
  rw [List.mem_reverse]
  apply mem_dropWhile_of _ _ hp
  rw [List.mem_reverse]
  exact mem_dropWhile_of _ hm hp

theorem listPrefix_subset {pat : List Char} :
    ∀ s : List Char, listPrefix pat s = true → ∀ c ∈ pat, c ∈ s := by
  induction pat with
  | nil => intro s _ c hc; exact absurd hc (List.not_mem_nil c)
  | cons a as ih =>
    intro s h c hc
    cases s with
    | nil => exact absurd h (by simp [listPrefix])
    | cons b bs =>
      rw [listPrefix, Bool.and_eq_true, beq_iff_eq] at h
      rcases List.mem_cons.mp hc with h1 | h1
      · rw [h1, ← h.1]; exact List.mem_cons_self a bs
      · exact List.mem_cons_of_mem b (ih bs h.2 c h1)

theorem containsSub_subset {pat : List Char} :
    ∀ s : List Char, containsSub s pat = true → ∀ c ∈ pat, c ∈ s := by
  intro s
  induction s with
  | nil =>
    intro h c hc
    rw [containsSub, List.isEmpty_iff] at h
    rw [h] at hc
    exact absurd hc (List.not_mem_nil c)
  | cons x xs ih =>
    intro h c hc
    rw [containsSub, Bool.or_eq_true_iff] at h
    rcases h with h1 | h1
    · exact listPrefix_subset (x :: xs) h1 c hc
    · exact List.mem_cons_of_mem x (ih h1 c hc)

theorem trimSpace_ne_nil_of_ansi {l : List Char} (h : containsSub l Bbs.ansiSig = true) :
    trimSpace l ≠ [] := by
  have hesc : escC ∈ l := containsSub_subset l h escC (List.mem_cons_self _ _)
  have : escC ∈ trimSpace l := mem_trimSpace_of hesc (by decide)
  intro he
  rw [he] at this
  exact absurd this (List.not_mem_nil escC)

theorem trimSpace_ne_nil_of_effLine_ansi {L : List Char}
    (h : containsSub (Bbs.effLine L) Bbs.ansiSig = true) : trimSpace L ≠ [] := by
  rw [Bbs.effLine] at h
  by_cases hc : 5 < (trimSpace L).length ∧ listPrefix "@CLS@".toList (trimSpace L) = true
  · intro he
    rw [he] at hc
    exact absurd hc.1 (by simp)
  · rw [if_neg hc] at h
    exact trimSpace_ne_nil_of_ansi h

theorem lineVerdict_of_ansi {L : List Char}
    (h : containsSub (Bbs.effLine L) Bbs.ansiSig = true) : Bbs.lineVerdict L = some 0 := by
  rw [Bbs.lineVerdict, if_neg (trimSpace_ne_nil_of_effLine_ansi h)]
  simp only [h, if_true]

theorem lineVerdict_of_blank {l : List Char} (h : trimSpace l = []) :
    Bbs.lineVerdict l = none := by
  rw [Bbs.lineVerdict, if_pos h]

theorem lineVerdict_of_bar {L : List Char} (hne : trimSpace L ≠ [])
    (hAnsi : containsSub (Bbs.effLine L) Bbs.ansiSig = false)
    (hBar : containsSub (Bbs.effLine L) ['|'] = true)
    (hRen : Bbs.IsRenegade (Bbs.effLine L) = false)
    (hCel : Bbs.IsCelerity (Bbs.effLine L) = false) :
    Bbs.lineVerdict L = some (-1) := by
  rw [Bbs.lineVerdict, if_neg hne]
  simp only [hAnsi, hBar, hRen, hCel]
  rfl

theorem FindLines_append {pre : List (List Char)} (rest : List (List Char))
    (h : ∀ l ∈ pre, Bbs.lineVerdict l = none) :
    Bbs.FindLines (pre ++ rest) = Bbs.FindLines rest := by
  induction pre with
  | nil => rfl
  | cons x xs ih =>
    rw [List.cons_append, Bbs.FindLines, h x (List.mem_cons_self x xs)]
    exact ih (fun l hl => h l (List.mem_cons_of_mem x hl))

theorem FindLines_cons_of_some {L : List Char} {v : Int} (post : List (List Char))
    (h : Bbs.lineVerdict L = some v) : Bbs.FindLines (L :: post) = v := by
  rw [Bbs.FindLines, h]

/-! Helper layer: bars range tests and prefix fragments. -/

theorem barForeground_iff (n : Int) : Split.barForeground n = true ↔ (0 ≤ n ∧ n ≤ 15) := by
  rw [Split.barForeground]
  split_ifs with h1 h2 <;> simp <;> omega

theorem barBackground_iff (n : Int) : Split.barBackground n = true ↔ (16 ≤ n ∧ n ≤ 23) := by
  rw [Split.barBackground]
  split_ifs with h1 h2 <;> simp <;> omega

theorem barsNext_low {st : Int × Int} {n : Int} (h0 : 0 ≤ n) (h15 : n ≤ 15) :
    Split.barsNext st n = (st.1, n) := by
  rw [Split.barsNext]
  rw [if_pos ((barForeground_iff n).mpr ⟨h0, h15⟩)]
  rw [if_neg (by rw [barBackground_iff]; omega : ¬ Split.barBackground n = true)]

theorem barsNext_high {st : Int × Int} {n : Int} (h16 : 16 ≤ n) (h23 : n ≤ 23) :
    Split.barsNext st n = (n, st.2) := by
  rw [Split.barsNext]
  rw [if_neg (by rw [barForeground_iff]; omega : ¬ Split.barForeground n = true)]
  rw [if_pos ((barBackground_iff n).mpr ⟨h16, h23⟩)]

theorem barsNext_out {st : Int × Int} {n : Int} (h : n < 0 ∨ 23 < n) :
    Split.barsNext st n = st := by
  rw [Split.barsNext]
  rw [if_neg (by rw [barForeground_iff]; omega : ¬ Split.barForeground n = true)]
  rw [if_neg (by rw [barBackground_iff]; omega : ¬ Split.barBackground n = true)]

/-- The decimal digit character for a value below ten. -/
def decChar (n : Nat) : Char := Char.ofNat (48 + n)

theorem barsSubst_cons_ne {p : Char} (hp : p ≠ '|') :
    ∀ l : List Char, Split.barsSubst (p :: l) = p :: Split.barsSubst l := by
  intro l
  match l with
  | [] => rfl
  | [x] => rfl
  | x :: y :: r =>
    rw [Split.barsSubst, if_neg (fun hc => hp hc.1)]

theorem barsSubst_append_noBar {pre : List Char} (h : ∀ c ∈ pre, c ≠ '|') (tail : List Char) :
    Split.barsSubst (pre ++ tail) = pre ++ Split.barsSubst tail := by
  induction pre with
  | nil => rfl
  | cons c cs ih =>
    rw [List.cons_append, barsSubst_cons_ne (h c (List.mem_cons_self c cs)),
      ih (fun x hx => h x (List.mem_cons_of_mem c hx)), List.cons_append]

theorem barsSubst_code {d e : Char} (h : Split.vbarsPair d e = true) (rest : List Char) :
    Split.barsSubst ('|' :: d :: e :: rest) = sepC :: d :: e :: Split.barsSubst rest := by
  rw [Split.barsSubst, if_pos ⟨rfl, h⟩]

/-- Splitting with a clean prefix before the first code: the prefix becomes
one extra leading fragment. -/
theorem VBars_withLead {pre : List Char} {d e : Char} (rest : List Char)
    (hne : pre ≠ []) (hbar : ∀ c ∈ pre, c ≠ '|') (hsep : ∀ c ∈ pre, c ≠ sepC)
    (hcode : Split.vbarsPair d e = true) :
    Split.VBars (pre ++ '|' :: d :: e :: rest) = pre :: Split.VBars ('|' :: d :: e :: rest) := by
  have hL : Split.barsSubst (pre ++ '|' :: d :: e :: rest)
      = pre ++ sepC :: d :: e :: Split.barsSubst rest := by
    rw [barsSubst_append_noBar hbar, barsSubst_code hcode]
  have hR : Split.barsSubst ('|' :: d :: e :: rest) = sepC :: d :: e :: Split.barsSubst rest :=
    barsSubst_code hcode rest
  rw [Split.VBars, Split.VBars, hL, hR]
  have hcL : (pre ++ sepC :: d :: e :: Split.barsSubst rest).contains sepC = true :=
    List.elem_eq_true_of_mem (List.mem_append_right pre (List.mem_cons_self _ _))
  have hcR : (sepC :: d :: e :: Split.barsSubst rest).contains sepC = true :=
    List.elem_eq_true_of_mem (List.mem_cons_self _ _)
  simp only [hcL, hcR, if_true]
  rw [splitOnChar_append_sep pre (d :: e :: Split.barsSubst rest) hsep]
  rw [show Split.splitOnChar sepC (sepC :: d :: e :: Split.barsSubst rest)
      = [] :: Split.splitOnChar sepC (d :: e :: Split.barsSubst rest) from by
    rw [Split.splitOnChar, if_pos rfl]]
  rw [List.filter_cons, List.filter_cons]
  have hpe : (!pre.isEmpty) = true := by simp [List.isEmpty_iff, hne]
  rw [hpe]
  simp

theorem VBars_code_ne_nil {d e : Char} (rest : List Char) (hcode : Split.vbarsPair d e = true) :
    Split.VBars ('|' :: d :: e :: rest) ≠ [] := by
  rw [Split.VBars, barsSubst_code hcode]
  have hcR : (sepC :: d :: e :: Split.barsSubst rest).contains sepC = true :=
    List.elem_eq_true_of_mem (List.mem_cons_self _ _)
  simp only [hcR, if_true]
  apply filter_splitOnChar_ne_nil
  exact ⟨d, List.mem_cons_of_mem _ (List.mem_cons_self _ _), vbarsPair_fst_ne_sep hcode⟩

/-! The claims. -/

/-- C1: for every format renderer (VBarsHTML, CelerityHTML, PCBoardHTML and
the public per-format wrappers) and every input with at least one valid code
of the format grammar, the successful output is a concatenation of i-element
spans whose literal content (and interpolated colour values) pass through the
HTML entity escaper; the escaper output never contains a raw angle bracket or
quote character, and every ampersand it emits starts one of the five entities
for the lt, gt, amp, apostrophe and quote characters. -/
theorem spec_C1 :
    (∀ src out, Split.VBarsHTML src = .ok out → Split.hasBarsMatch src = true →
      SpanConcat Split.barsSpan out)
    ∧ (∀ src out, Split.CelerityHTML src = .ok out → Split.hasCelMatch src = true →
        SpanConcat Split.celSpanP out)
    ∧ (∀ src out, Split.PCBoardHTML src = .ok out → Split.hasPCBMatch src = true →
        SpanConcat Split.celSpanP out)
    ∧ (∀ src out, Bbs.WildcatHTML src = .ok out →
        Split.hasPCBMatch (Bbs.wildcatSubst src) = true → SpanConcat Split.celSpanP out)
    ∧ (∀ src out, Bbs.TelegardHTML src = .ok out →
        Split.hasPCBMatch (Bbs.telegardSubst src) = true → SpanConcat Split.celSpanP out)
    ∧ (∀ src out, Bbs.WWIVHashHTML src = .ok out →
        Split.hasBarsMatch (Bbs.hashSubst src) = true → SpanConcat Split.barsSpan out)
    ∧ (∀ src out, Bbs.WWIVHeartHTML src = .ok out →
        Split.hasBarsMatch (Bbs.heartSubst src) = true → SpanConcat Split.barsSpan out)
    ∧ (∀ s : List Char, (escapeHTML s).all (fun c => !dangerous c) = true)
    ∧ (∀ s : List Char, ampOK (escapeHTML s) = true) := by
  have hbars : ∀ src out, Split.VBarsHTML src = .ok out → Split.hasBarsMatch src = true →
      SpanConcat Split.barsSpan out := by
    intro src out h hm
    rw [Split.VBarsHTML] at h
    have he : (Split.VBars src).isEmpty = false := by
      simp [List.isEmpty_iff, VBars_ne_nil_of_match hm]
    rw [he] at h
    simp only [Bool.false_eq_true, if_false, reduceIte] at h
    exact renderBarsAux_spanConcat _ _ _ h
  have hpcb : ∀ src out, Split.PCBoardHTML src = .ok out → Split.hasPCBMatch src = true →
      SpanConcat Split.celSpanP out := by
    intro src out h hm
    rw [Split.PCBoardHTML] at h
    have he : (Split.PCBoard src).isEmpty = false := by
      simp [List.isEmpty_iff, PCBoard_ne_nil_of_match hm]
    rw [he] at h
    simp only [Bool.false_eq_true, if_false, reduceIte] at h
    exact renderPCBAux_spanConcat _ _ h
  refine ⟨hbars, ?_, hpcb, ?_, ?_, ?_, ?_, escapeHTML_no_dangerous, ampOK_escapeHTML⟩
  · intro src out h hm
    rw [Split.CelerityHTML] at h
    have he : (Split.Celerity src).isEmpty = false := by
      simp [List.isEmpty_iff, Celerity_ne_nil_of_match hm]
    rw [he] at h
    simp only [Bool.false_eq_true, if_false, reduceIte] at h
    exact renderCelAux_spanConcat _ _ _ _ h
  · intro src out h hm
    exact hpcb (Bbs.wildcatSubst src) out h hm
  · intro src out h hm
    exact hpcb (Bbs.telegardSubst src) out h hm
  · intro src out h hm
    exact hbars (Bbs.hashSubst src) out h hm
  · intro src out h hm
    exact hbars (Bbs.heartSubst src) out h hm

/-- C1 witness: a concrete Renegade input whose angle brackets come out as
entities, rendered as one span. -/
theorem spec_C1_witness :
    SpanConcat Split.barsSpan ("<i class=\"P0 P3\">&lt;b&gt;</i>".toList) :=
  spec_C1.1 ("|03<b>".toList) _ rfl rfl

/-- C2 counterexample: WildcatHTML on text with zero Wildcat codes still
rewrites and renders it when the text holds a PCBoard code, and the bars
renderer on code-free text containing the private separator character 65535
erases the text entirely, returning success with empty output. -/
theorem spec_C2_counterexample :
    Bbs.hasWildcatMatch ("@X03Hello world".toList) = false
    ∧ Bbs.WildcatHTML ("@X03Hello world".toList)
        = .ok ("<i class=\"PB0 PF3\">Hello world</i>".toList)
    ∧ ("<i class=\"PB0 PF3\">Hello world</i>".toList ≠ "@X03Hello world".toList)
    ∧ Split.hasBarsMatch ("AB￿CD".toList) = false
    ∧ Bbs.RenegadeHTML ("AB￿CD".toList) = .ok []
    ∧ (([] : List Char) ≠ "AB￿CD".toList) := by
  exact ⟨rfl, rfl, by decide, rfl, rfl, by decide⟩

/-- C2 amended: for every transcodable format, when the input has zero
occurrences of the format grammar, zero occurrences of the shared grammar it
is normalised into (PCBoard for Wildcat and Telegard, bars for the two WWIV
forms), and does not contain the private separator character, the conversion
writes the input unchanged and reports no error. -/
theorem spec_C2 :
    (∀ src : List Char, Split.hasBarsMatch src = false → src.contains sepC = false →
      Bbs.RenegadeHTML src = .ok src)
    ∧ (∀ src : List Char, Split.hasCelMatch src = false → src.contains sepC = false →
        Bbs.CelerityHTML src = .ok src)
    ∧ (∀ src : List Char, Split.hasPCBMatch src = false → src.contains sepC = false →
        Bbs.PCBoardHTML src = .ok src)
    ∧ (∀ src : List Char, Bbs.hasWildcatMatch src = false → Split.hasPCBMatch src = false →
        src.contains sepC = false → Bbs.WildcatHTML src = .ok src)
    ∧ (∀ src : List Char, Bbs.hasTelegardMatch src = false → Split.hasPCBMatch src = false →
        src.contains sepC = false → Bbs.TelegardHTML src = .ok src)
    ∧ (∀ src : List Char, Bbs.hasHashMatch src = false → Split.hasBarsMatch src = false →
        src.contains sepC = false → Bbs.WWIVHashHTML src = .ok src)
    ∧ (∀ src : List Char, Bbs.hasHeartMatch src = false → Split.hasBarsMatch src = false →
        src.contains sepC = false → Bbs.WWIVHeartHTML src = .ok src) := by
  refine ⟨?_, ?_, ?_, ?_, ?_, ?_, ?_⟩
  · intro src hm hs
    exact VBarsHTML_passthrough hm hs
  · intro src hm hs
    exact CelerityHTML_passthrough hm hs
  · intro src hm hs
    exact PCBoardHTML_passthrough hm hs
  · intro src hw hp hs
    rw [Bbs.WildcatHTML, wildcatSubst_id_of_no_match src hw]
    exact PCBoardHTML_passthrough hp hs
  · intro src ht hp hs
    rw [Bbs.TelegardHTML, telegardSubst_id_of_no_match src ht]
    exact PCBoardHTML_passthrough hp hs
  · intro src hh hb hs
    rw [Bbs.WWIVHashHTML, hashSubst_id_of_no_match src hh]
    exact VBarsHTML_passthrough hb hs
  · intro src hh hb hs
    rw [Bbs.WWIVHeartHTML, heartSubst_id_of_no_match src hh]
    exact VBarsHTML_passthrough hb hs

/-- C2 witness: plain text passes through each of the three base renderers. -/
theorem spec_C2_witness :
    Bbs.RenegadeHTML ("Hello world".toList) = .ok ("Hello world".toList)
    ∧ Bbs.WildcatHTML ("PCBoard @X code".toList) = .ok ("PCBoard @X code".toList) :=
  ⟨spec_C2.1 ("Hello world".toList) rfl rfl,
   spec_C2.2.2.2.1 ("PCBoard @X code".toList) rfl rfl rfl⟩

/-- C3: when every line before L carries no recognisable evidence and L
contains the ANSI signature, Find returns ANSI, and both Fields and the
top-level HTML conversion fail with the ANSI error. -/
theorem spec_C3 :
    ∀ (src : List Char) (pre : List (List Char)) (L : List Char) (post : List (List Char)),
      Bbs.splitLinesGo src = pre ++ L :: post →
      (∀ l ∈ pre, Bbs.lineVerdict l = none) →
      containsSub (Bbs.effLine L) Bbs.ansiSig = true →
      Bbs.Find src = 0 ∧ Bbs.Fields src = .error .errANSI
        ∧ Bbs.HTML src = (0, .error .errANSI) := by
  intro src pre L post hsplit hpre hA
  have hFind : Bbs.Find src = 0 := by
    rw [Bbs.Find, hsplit, FindLines_append (L :: post) hpre,
      FindLines_cons_of_some post (lineVerdict_of_ansi hA)]
  refine ⟨hFind, ?_, ?_⟩
  · simp only [Bbs.Fields, hFind]
    rfl
  · simp only [Bbs.HTML, hFind]
    rfl

/-- C3 witness: a concrete stream opening with an ANSI reset sequence. -/
theorem spec_C3_witness :
    Bbs.Find ("\x1b[0m".toList) = 0 ∧ Bbs.Fields ("\x1b[0m".toList) = .error .errANSI
      ∧ Bbs.HTML ("\x1b[0m".toList) = (0, .error .errANSI) :=
  spec_C3 ("\x1b[0m".toList) [] ("\x1b[0m".toList) [] rfl
    (fun l hl => absurd hl (List.not_mem_nil l)) rfl

/-- C4 counterexample: the two-digit value 10 is not matched by the bars
grammar, whose second alternative starts at 11, so the code bar-one-zero is
not recognised and splits to nothing. -/
theorem spec_C4_counterexample :
    Split.vbarsPair '1' '0' = false
    ∧ Split.hasBarsMatch ("|10world".toList) = false
    ∧ Split.VBars ("|10world".toList) = [] := ⟨rfl, rfl, rfl⟩

/-- C4 amended: the bars grammar recognises exactly the two-digit values 00
through 23 other than 10; during rendering a parsed value from 0 to 15
updates only the foreground, one from 16 to 23 updates only the background, a
value outside both ranges leaves the state unchanged, and an unparsable pair
is skipped, none of which fails the conversion. -/
theorem spec_C4 :
    (∀ n : Nat, n < 24 → n ≠ 10 →
      Split.vbarsPair (decChar (n / 10)) (decChar (n % 10)) = true)
    ∧ (∀ n : Nat, n < 100 →
        (Split.vbarsPair (decChar (n / 10)) (decChar (n % 10)) = true ↔ (n ≤ 23 ∧ n ≠ 10)))
    ∧ (∀ (st : Int × Int) (n : Int) (a b : Char) (cs : List Char) (rest : List (List Char)),
        atoi2c a b = some n → 0 ≤ n → n ≤ 15 →
          Split.renderBarsAux st ((a :: b :: cs) :: rest)
            = (Split.renderBarsAux (st.1, n) rest).map
                (fun t => Split.barsSpan (st.1, n) cs ++ t))
    ∧ (∀ (st : Int × Int) (n : Int) (a b : Char) (cs : List Char) (rest : List (List Char)),
        atoi2c a b = some n → 16 ≤ n → n ≤ 23 →
          Split.renderBarsAux st ((a :: b :: cs) :: rest)
            = (Split.renderBarsAux (n, st.2) rest).map
                (fun t => Split.barsSpan (n, st.2) cs ++ t))
    ∧ (∀ (st : Int × Int) (n : Int) (a b : Char) (cs : List Char) (rest : List (List Char)),
        atoi2c a b = some n → (n < 0 ∨ 23 < n) →
          Split.renderBarsAux st ((a :: b :: cs) :: rest)
            = (Split.renderBarsAux st rest).map (fun t => Split.barsSpan st cs ++ t))
    ∧ (∀ (st : Int × Int) (a b : Char) (cs : List Char) (rest : List (List Char)),
        atoi2c a b = none →
          Split.renderBarsAux st ((a :: b :: cs) :: rest) = Split.renderBarsAux st rest) := by
  refine ⟨by decide, by decide, ?_, ?_, ?_, ?_⟩
  · intro st n a b cs rest hA h0 h15
    simp only [Split.renderBarsAux, hA]
    rw [barsNext_low h0 h15]
  · intro st n a b cs rest hA h16 h23
    simp only [Split.renderBarsAux, hA]
    rw [barsNext_high h16 h23]
  · intro st n a b cs rest hA hout
    simp only [Split.renderBarsAux, hA]
    rw [barsNext_out hout]
  · intro st a b cs rest hA
    simp only [Split.renderBarsAux, hA]

/-- C4 witness: value 23 is recognised, a foreground code renders with the
background untouched, and a prefix fragment with an out-of-grammar pair is
skipped silently. -/
theorem spec_C4_witness :
    Split.vbarsPair (decChar (23 / 10)) (decChar (23 % 10)) = true
    ∧ Split.renderBarsAux (0, 0) (['0', '3'] :: [])
        = (Split.renderBarsAux ((0 : Int), (3 : Int)) []).map
            (fun t => Split.barsSpan ((0 : Int), (3 : Int)) [] ++ t)
    ∧ Split.renderBarsAux (0, 0) (['9', '9', 'x'] :: [])
        = (Split.renderBarsAux ((0 : Int), (0 : Int)) []).map
            (fun t => Split.barsSpan ((0 : Int), (0 : Int)) ['x'] ++ t) :=
  ⟨spec_C4.1 23 (by decide) (by decide),
   spec_C4.2.2.1 (0, 0) 3 '0' '3' [] [] rfl (by decide) (by decide),
   spec_C4.2.2.2.2.1 (0, 0) 99 '9' '9' ['x'] [] rfl (by decide)⟩

/-- C5 counterexample: literal text before the first Renegade code is not a
plain passthrough: rendering drops it when its leading two characters do not
parse as an integer. -/
theorem spec_C5_counterexample :
    Bbs.RenegadeHTML ("Hi|03X".toList) = .ok ("<i class=\"P0 P3\">X</i>".toList)
    ∧ containsSub ("<i class=\"P0 P3\">X</i>".toList) ("Hi".toList) = false := ⟨rfl, rfl⟩

/-- C5 amended: literal text without vertical bars or the separator character
standing before the first bars code forms a prefix fragment whose first two
characters are parsed as a colour value; when that parse fails the whole
prefix is dropped, so the output equals the output of the input without the
prefix. -/
theorem spec_C5 :
    ∀ (a b : Char) (cs : List Char) (d e : Char) (rest : List Char),
      (∀ c ∈ (a :: b :: cs : List Char), c ≠ '|') →
      (∀ c ∈ (a :: b :: cs : List Char), c ≠ sepC) →
      atoi2c a b = none →
      Split.vbarsPair d e = true →
      Bbs.RenegadeHTML ((a :: b :: cs) ++ '|' :: d :: e :: rest)
        = Bbs.RenegadeHTML ('|' :: d :: e :: rest) := by
  intro a b cs d e rest hbar hsep hA hp
  rw [Bbs.RenegadeHTML, Bbs.RenegadeHTML, Split.VBarsHTML, Split.VBarsHTML]
  rw [VBars_withLead rest (by simp) hbar hsep hp]
  have hR := VBars_code_ne_nil rest hp
  have he : (Split.VBars ('|' :: d :: e :: rest)).isEmpty = false := by
    simp [List.isEmpty_iff, hR]
  rw [he]
  rw [show ((a :: b :: cs) :: Split.VBars ('|' :: d :: e :: rest)).isEmpty = false from rfl]
  simp only [Bool.false_eq_true, if_false, reduceIte]
  simp only [Split.renderBarsAux, hA]

/-- C5 witness: dropping the two-character prefix gives the same output as
rendering without it. -/
theorem spec_C5_witness :
    Bbs.RenegadeHTML ("Hi|03X".toList) = Bbs.RenegadeHTML ("|03X".toList) :=
  spec_C5 'H' 'i' [] '0' '3' ("X".toList) (by decide) (by decide) rfl rfl

/-- C6: the claim is right and the code wrong: IsRenegade uses the format
verb that does not zero-pad single digits, so a lone vertical bar followed by
one digit, which is not a fully formed two-digit code of the bars grammar,
already makes the predicate true, contradicting its own documentation of a
padded value between 00 and 23. -/
theorem spec_C6 :
    Bbs.IsRenegade ("|1".toList) = true ∧ Split.hasBarsMatch ("|1".toList) = false
      ∧ Bbs.IsTelegard ((graveC :: ['1'])) = true := ⟨rfl, rfl, rfl⟩

/-- C7 counterexample: a first line containing both the ANSI signature and a
vertical bar satisfies the stated hypotheses (bar present, neither predicate
holds) yet Find returns ANSI, not the none sentinel, because the ANSI check
precedes the vertical-bar rule. -/
theorem spec_C7_counterexample :
    containsSub (Bbs.effLine ("\x1b[|".toList)) ['|'] = true
    ∧ Bbs.IsRenegade (Bbs.effLine ("\x1b[|".toList)) = false
    ∧ Bbs.IsCelerity (Bbs.effLine ("\x1b[|".toList)) = false
    ∧ Bbs.splitLinesGo ("\x1b[|".toList) = ["\x1b[|".toList]
    ∧ Bbs.Find ("\x1b[|".toList) = 0
    ∧ ((0 : Int) ≠ -1) := ⟨rfl, rfl, rfl, rfl, rfl, by decide⟩

/-- C7 amended: when the first non-blank line contains a vertical bar, does
not contain the ANSI signature, and satisfies neither IsRenegade nor
IsCelerity, Find returns the none sentinel immediately, whatever the later
lines hold. -/
theorem spec_C7 :
    ∀ (src : List Char) (pre : List (List Char)) (L : List Char) (post : List (List Char)),
      Bbs.splitLinesGo src = pre ++ L :: post →
      (∀ l ∈ pre, trimSpace l = []) →
      trimSpace L ≠ [] →
      containsSub (Bbs.effLine L) Bbs.ansiSig = false →
      containsSub (Bbs.effLine L) ['|'] = true →
      Bbs.IsRenegade (Bbs.effLine L) = false →
      Bbs.IsCelerity (Bbs.effLine L) = false →
      Bbs.Find src = -1 := by
  intro src pre L post hsplit hblank hne hA hB hR hC
  rw [Bbs.Find, hsplit,
    FindLines_append (L :: post) (fun l hl => lineVerdict_of_blank (hblank l hl)),
    FindLines_cons_of_some post (lineVerdict_of_bar hne hA hB hR hC)]

/-- C7 witness: an ambiguous vertical-bar first line stops the scan even
though the second line holds a valid PCBoard code. -/
theorem spec_C7_witness : Bbs.Find ("|q\n@X03Hi".toList) = -1 :=
  spec_C7 ("|q\n@X03Hi".toList) [] ("|q".toList) ["@X03Hi".toList] rfl
    (fun l hl => absurd hl (List.not_mem_nil l)) (by decide) rfl rfl rfl rfl

/-- C8: the Renegade rendering of the documented example input, with the
default background class P0 before any background code and an empty span for
the code with no following text. -/
theorem spec_C8 :
    Bbs.RenegadeHTML ("|03Hello |07|19world".toList)
      = .ok ("<i class=\"P0 P3\">Hello </i><i class=\"P0 P7\"></i><i class=\"P19 P7\">world</i>".toList) :=
  rfl

/-- C9: the Celerity rendering of the documented example input, with defaults
foreground w and background k, the swap code flipping the channel without a
span of its own, and an empty span for the code with no following text. -/
theorem spec_C9 :
    Bbs.CelerityHTML ("|cHello |C|S|wworld".toList)
      = .ok ("<i class=\"PBk PFc\">Hello </i><i class=\"PBk PFC\"></i><i class=\"PBw PFC\">world</i>".toList) :=
  rfl

/-- C10: the Celerity swap code flips the channel toggle exactly when its
fragment is the bare letter S; an S followed by literal text flips nothing
and instead renders a span using S as the colour value of the active channel
with the following text as content. -/
theorem spec_C10 :
    (∀ (b : Bool) (st : List Char × List Char) (frag : List Char), frag ≠ [] →
      (((Split.celStep b st frag).1 ≠ b) ↔ frag = ['S']))
    ∧ (∀ (st : List Char × List Char) (c : Char) (cs : List Char),
        Split.celStep false st ('S' :: c :: cs)
          = (false, (st.1, ['S']), some (Split.celSpan st.1 ['S'] (c :: cs))))
    ∧ (∀ (st : List Char × List Char) (c : Char) (cs : List Char),
        Split.celStep true st ('S' :: c :: cs)
          = (true, (['S'], st.2), some (Split.celSpan ['S'] st.2 (c :: cs))))
    ∧ Bbs.CelerityHTML ("|cA|SB".toList)
        = .ok ("<i class=\"PBk PFc\">A</i><i class=\"PBk PFS\">B</i>".toList) := by
  refine ⟨?_, fun st c cs => rfl, fun st c cs => rfl, rfl⟩
  intro b st frag hne
  by_cases hS : frag = ['S']
  · refine iff_of_true ?_ hS
    rw [hS]
    show (Split.celStep b st ['S']).1 ≠ b
    cases b <;> simp [Split.celStep]
  · refine iff_of_false ?_ hS
    have hfix : (Split.celStep b st frag).1 = b := by
      cases frag with
      | nil => rfl
      | cons c cs => simp [Split.celStep, hS]
    rw [hfix]
    exact fun h => h rfl

/-- C10 witness: the bare S fragment flips the toggle, an S with content does
not. -/
theorem spec_C10_witness :
    ((Split.celStep false (['k'], ['w']) ['S']).1 ≠ false)
    ∧ ¬ ((Split.celStep false (['k'], ['w']) ['S', 'B']).1 ≠ false) :=
  ⟨(spec_C10.1 false (['k'], ['w']) ['S'] (by decide)).mpr rfl,
   fun h => absurd ((spec_C10.1 false (['k'], ['w']) ['S', 'B'] (by decide)).mp h) (by decide)⟩
